import Mathlib

/-!
# Verification of the Triplit / TanStack DB collection adapter

A shallow embedding of `src/options.ts` (`createTriplitCollectionOptions`):
the snapshot reconciler (`reconcileSnapshot`), the sync session driven by the
one-shot fetch and the subscription (`syncFn`), and the mutation forwarders
(`onInsert`, `onUpdate`, `onDelete`).

Items are an arbitrary type `TItem`; keys are an arbitrary type `K` with
decidable equality (standing for the source's `string | number`); the
caller-supplied key extractor `getKey` is a Lean function `TItem → K` when it
is assumed total, or `TItem → Except Err K` where the possibility of `getKey`
throwing matters (`Except.error e` models a throw of `e`).
-/

namespace TriplitAdapter

/-- A change operation written into the collection during a reconciliation
pass: `write({ type: 'insert' | 'update' | 'delete', value })` in
`src/options.ts`. -/
inductive ChangeOp (TItem : Type) where
  | insert (value : TItem)
  | update (value : TItem)
  | delete (value : TItem)
  deriving DecidableEq, Repr

/-- Observable events of one sync session, in program order: the `begin`,
`write`, `commit`, `markReady` callbacks of the TanStack sync interface, the
`onError` observer callback, and `evThrown e` for an exception that
propagates out of a handler uncaught. -/
inductive SyncEvent (TItem Err : Type) where
  | evBegin
  | evWrite (op : ChangeOp TItem)
  | evCommit
  | evMarkReady
  | evOnError (e : Err)
  | evThrown (e : Err)
  deriving DecidableEq, Repr

/-- Iteration order of a JavaScript `Set` built from a list: each element at
its first occurrence. Models `new Set(items.map(getKey))` in
`reconcileSnapshot`. -/
def jsSet {K : Type} [DecidableEq K] : List K → List K
  | [] => []
  | a :: l => a :: (jsSet l).filter (fun b => decide (b ≠ a))

/-- The delete pass of `reconcileSnapshot` (src/options.ts lines 66-74):
for each key of the local `Set` that is absent from the remote key set, the
first local item with that key (`localItems.find(...)`), skipped if absent. -/
def delItems {TItem K : Type} [DecidableEq K]
    (localItems remoteItems : List TItem) (getKey : TItem → K) : List TItem :=
  ((jsSet (localItems.map getKey)).filter
      (fun k => decide (k ∉ remoteItems.map getKey))).filterMap
    (fun k => localItems.find? (fun it => decide (getKey it = k)))

/-- The batch of change operations emitted by one reconciliation pass
(`reconcileSnapshot`, src/options.ts lines 56-86): deletes for local-only
keys first, then one update/insert per remote item in snapshot order,
`update` when the item's key is already present locally. -/
def reconcileOps {TItem K : Type} [DecidableEq K]
    (localItems remoteItems : List TItem) (getKey : TItem → K) :
    List (ChangeOp TItem) :=
  (delItems localItems remoteItems getKey).map ChangeOp.delete ++
    remoteItems.map (fun it =>
      if getKey it ∈ jsSet (localItems.map getKey) then ChangeOp.update it
      else ChangeOp.insert it)

/-- One run of `reconcileSnapshot` (src/options.ts lines 56-86) with a
`getKey` that may throw (`Except.error`). Returns the trace of sync-interface
calls made and `some e` when an exception `e` propagates out of the pass.
`begin()` is called first; `localKeys` is computed from the local items, then
`remoteKeys` from the snapshot (`none` models a `null`/`undefined` result
set); a throw in either aborts the pass after `begin` with no writes and no
`commit`. When both key computations succeed, `getKey` being a function makes
its later re-invocations inside the loops succeed with the same keys, so the
delete and insert/update loops run to completion and `commit()` is called. -/
def reconcileSnapshotRun {TItem K Err : Type} [DecidableEq K]
    (localItems : List TItem) (results : Option (List TItem))
    (getKey : TItem → Except Err K) :
    List (SyncEvent TItem Err) × Option Err :=
  let remoteItems := results.getD []
  match localItems.mapM getKey, remoteItems.mapM getKey with
  | .error e, _ => ([SyncEvent.evBegin], some e)
  | .ok _, .error e => ([SyncEvent.evBegin], some e)
  | .ok lkeys, .ok rkeys =>
      let localKeys := jsSet lkeys
      let dels := (localKeys.filter (fun k => decide (k ∉ rkeys))).filterMap
          (fun k => ((localItems.zip lkeys).find? (fun p => decide (p.2 = k))).map
            (fun p => SyncEvent.evWrite (ChangeOp.delete p.1)))
      let ups := (remoteItems.zip rkeys).map (fun p =>
          if p.2 ∈ localKeys then SyncEvent.evWrite (ChangeOp.update p.1)
          else SyncEvent.evWrite (ChangeOp.insert p.1))
      (SyncEvent.evBegin :: dels ++ ups ++ [SyncEvent.evCommit], none)

/-- Modelled from the spec: the Replica owner's application of a single
change operation to its keyed store (spec §3 "Replica", §6 collaborator B) —
`insert`/`update` set the item's key to the item (JavaScript `Map.set`
semantics: replace in place when the key exists, append otherwise), `delete`
removes the item's key. The store is the ordered list of items, keyed by
`getKey`. -/
def upsertVal {TItem K : Type} [DecidableEq K]
    (getKey : TItem → K) (items : List TItem) (v : TItem) : List TItem :=
  if items.any (fun it => decide (getKey it = getKey v)) then
    items.map (fun it => if getKey it = getKey v then v else it)
  else items ++ [v]

/-- Modelled from the spec: application of one change operation to the
Replica (see `upsertVal`). -/
def applyOp {TItem K : Type} [DecidableEq K]
    (getKey : TItem → K) (items : List TItem) : ChangeOp TItem → List TItem
  | .insert v => upsertVal getKey items v
  | .update v => upsertVal getKey items v
  | .delete v => items.filter (fun it => decide (getKey it ≠ getKey v))

/-- Modelled from the spec: application of an emitted batch to the Replica,
in emission order. -/
def applyOps {TItem K : Type} [DecidableEq K]
    (getKey : TItem → K) (items : List TItem) (ops : List (ChangeOp TItem)) :
    List TItem :=
  ops.foldl (applyOp getKey) items

/-- The per-session mutable state of `syncFn`: the `isReady` flag (line 53)
and the Replica contents the next `collection.state.values()` read will
see. -/
structure SessionState (TItem : Type) where
  isReady : Bool
  replica : List TItem
  deriving DecidableEq, Repr

/-- One asynchronous delivery processed by a session: resolution of the
one-shot fetch (success with a possibly-null result set, or rejection), or a
subscription data/error callback invocation. -/
inductive SessionInput (TItem Err : Type) where
  | fetchOk (snap : Option (List TItem))
  | fetchErr (e : Err)
  | subData (snap : Option (List TItem))
  | subErr (e : Err)
  deriving DecidableEq, Repr

/-- `true` for the inputs that deliver data (fetch success, subscription data
callback). -/
def SessionInput.isData {TItem Err : Type} : SessionInput TItem Err → Bool
  | .fetchOk _ => true
  | .subData _ => true
  | _ => false

/-- One step of `syncFn` (src/options.ts lines 90-119) with a total `getKey`,
processing a single delivery on the session's single-threaded event loop:
- fetch success: `if (isReady) return;` discards the result; otherwise
  `reconcileSnapshot` then `markReady()` then `isReady = true`;
- fetch rejection: `console.error` then `onError?.(err)`;
- subscription data: `reconcileSnapshot`, then `markReady()`/`isReady = true`
  only when not yet ready;
- subscription error: `console.error` then `onError?.(error)`.
A committed pass updates the Replica by `applyOps`. -/
def stepSession {TItem K Err : Type} [DecidableEq K] (getKey : TItem → K)
    (st : SessionState TItem) :
    SessionInput TItem Err → SessionState TItem × List (SyncEvent TItem Err)
  | .fetchOk snap =>
    if st.isReady then (st, [])
    else
      let ops := reconcileOps st.replica (snap.getD []) getKey
      (⟨true, applyOps getKey st.replica ops⟩,
        SyncEvent.evBegin :: ops.map SyncEvent.evWrite ++
          [SyncEvent.evCommit, SyncEvent.evMarkReady])
  | .fetchErr e => (st, [SyncEvent.evOnError e])
  | .subData snap =>
      let ops := reconcileOps st.replica (snap.getD []) getKey
      (⟨true, applyOps getKey st.replica ops⟩,
        SyncEvent.evBegin :: ops.map SyncEvent.evWrite ++ [SyncEvent.evCommit] ++
          (if st.isReady then [] else [SyncEvent.evMarkReady]))
  | .subErr e => (st, [SyncEvent.evOnError e])

/-- A whole session run: the deliveries processed in order from a starting
state, with the concatenated event trace. -/
def runSession {TItem K Err : Type} [DecidableEq K] (getKey : TItem → K) :
    SessionState TItem → List (SessionInput TItem Err) →
    SessionState TItem × List (SyncEvent TItem Err)
  | st, [] => (st, [])
  | st, inp :: rest =>
    let s1 := stepSession getKey st inp
    let s2 := runSession getKey s1.1 rest
    (s2.1, s1.2 ++ s2.2)

/-- The fetch-resolution handler of `syncFn` (src/options.ts lines 90-102)
with a `getKey` that may throw: the `.then` callback returns early when
already ready; otherwise it runs `reconcileSnapshot` and `markReady`. An
exception thrown inside the `.then` callback — including a `getKey` throw
during the reconciliation — is caught by the `.catch` attached after it,
which invokes the observer. -/
def fetchResolveRun {TItem K Err : Type} [DecidableEq K]
    (isReady : Bool) (replica : List TItem) (snap : Option (List TItem))
    (getKey : TItem → Except Err K) : List (SyncEvent TItem Err) :=
  if isReady then []
  else
    match reconcileSnapshotRun replica snap getKey with
    | (tr, none) => tr ++ [SyncEvent.evMarkReady]
    | (tr, some e) => tr ++ [SyncEvent.evOnError e]

/-- The fetch-rejection path of `syncFn` (src/options.ts lines 97-102): the
`.catch` handler logs and invokes the observer. -/
def fetchRejectRun {TItem Err : Type} (e : Err) : List (SyncEvent TItem Err) :=
  [SyncEvent.evOnError e]

/-- The subscription data callback of `syncFn` (src/options.ts lines
107-114) with a `getKey` that may throw: `reconcileSnapshot(results)` first;
an exception it throws propagates out of the callback uncaught
(`evThrown`), skipping the readiness block; on success `markReady()` runs
only when not yet ready. -/
def subscriptionDataRun {TItem K Err : Type} [DecidableEq K]
    (isReady : Bool) (replica : List TItem) (snap : Option (List TItem))
    (getKey : TItem → Except Err K) : List (SyncEvent TItem Err) :=
  match reconcileSnapshotRun replica snap getKey with
  | (tr, none) => tr ++ (if isReady then [] else [SyncEvent.evMarkReady])
  | (tr, some e) => tr ++ [SyncEvent.evThrown e]

/-- The subscription error callback of `syncFn` (src/options.ts lines
115-118): log, then invoke the observer. -/
def subscriptionErrorRun {TItem Err : Type} (e : Err) :
    List (SyncEvent TItem Err) :=
  [SyncEvent.evOnError e]

/-- Events of one mutation-handler run: `call p` is a remote client call
issued with payload `p`, `obs e` an observer invocation with error `e`. -/
inductive MutEvent (P Err : Type) where
  | call (p : P)
  | obs (e : Err)
  deriving DecidableEq, Repr

/-- The shared loop shape of `onInsert`/`onUpdate`/`onDelete`
(src/options.ts lines 127-166): each remote call is awaited before the next
is issued; `outcome i` is the result of the `i`-th issued call. On the first
rejection the `catch` block invokes the observer once and rethrows, so later
entries are never issued and the handler's promise rejects with the same
error. -/
def forwardGo {P Err : Type} :
    List P → Nat → (Nat → Except Err Unit) → List (MutEvent P Err) × Except Err Unit
  | [], _, _ => ([], Except.ok ())
  | p :: rest, i, outcome =>
    match outcome i with
    | .ok _ =>
      let r := forwardGo rest (i + 1) outcome
      (MutEvent.call p :: r.1, r.2)
    | .error e => ([MutEvent.call p, MutEvent.obs e], Except.error e)

/-- A mutation-handler run over a batch of call payloads, calls numbered
from 0. -/
def forwardLoop {P Err : Type} (payloads : List P)
    (outcome : Nat → Except Err Unit) : List (MutEvent P Err) × Except Err Unit :=
  forwardGo payloads 0 outcome

/-- A TanStack insert mutation as consumed by `onInsert`: only its
`modified` full item is used. -/
structure InsMutation (TItem : Type) where
  modified : TItem
  deriving DecidableEq, Repr

/-- A TanStack mutation key: `string | number`, per the adapter's
`getKey` return type. -/
inductive MKey where
  | str (s : String)
  | num (n : Int)
  deriving DecidableEq, Repr

/-- JavaScript `String(key)` on a `string | number` key, as used by
`onUpdate`/`onDelete` (src/options.ts lines 146, 160). -/
def mkeyToString : MKey → String
  | .str s => s
  | .num n => toString n

/-- A TanStack update mutation as consumed by `onUpdate`: its key and its
partial `changes`. -/
structure UpdMutation (C : Type) where
  key : MKey
  changes : C
  deriving DecidableEq, Repr

/-- A TanStack delete mutation as consumed by `onDelete`: only its key. -/
structure DelMutation where
  key : MKey
  deriving DecidableEq, Repr

/-- `onInsert` (src/options.ts lines 127-138): for each mutation in order,
`await client.insert(collectionName, mutation.modified)`. -/
def onInsertRun {TItem Err : Type} (muts : List (InsMutation TItem))
    (outcome : Nat → Except Err Unit) :
    List (MutEvent TItem Err) × Except Err Unit :=
  forwardLoop (muts.map (fun m => m.modified)) outcome

/-- `onUpdate` (src/options.ts lines 140-154): for each mutation in order,
`await client.update(collectionName, String(mutation.key),
mutation.changes)`. -/
def onUpdateRun {C Err : Type} (muts : List (UpdMutation C))
    (outcome : Nat → Except Err Unit) :
    List (MutEvent (String × C) Err) × Except Err Unit :=
  forwardLoop (muts.map (fun m => (mkeyToString m.key, m.changes))) outcome

/-- `onDelete` (src/options.ts lines 156-166): for each mutation in order,
`await client.delete(collectionName, String(mutation.key))`. -/
def onDeleteRun {Err : Type} (muts : List DelMutation)
    (outcome : Nat → Except Err Unit) :
    List (MutEvent String Err) × Except Err Unit :=
  forwardLoop (muts.map (fun m => mkeyToString m.key)) outcome

section JsSetLemmas

variable {K : Type} [DecidableEq K]

theorem mem_jsSet {a : K} : ∀ {l : List K}, a ∈ jsSet l ↔ a ∈ l
  | [] => Iff.rfl
  | b :: l => by
    simp only [jsSet, List.mem_cons]
    by_cases hab : a = b
    · subst hab; simp
    · simp only [hab, false_or, List.mem_filter, decide_eq_true_eq]
      rw [mem_jsSet (l := l)]
      simp [hab]

theorem nodup_jsSet : ∀ (l : List K), (jsSet l).Nodup
  | [] => List.nodup_nil
  | b :: l => by
    simp only [jsSet]
    refine List.nodup_cons.2 ⟨fun hmem => ?_, List.Nodup.filter _ (nodup_jsSet l)⟩
    simp at hmem

theorem jsSet_eq_self_of_nodup : ∀ {l : List K}, l.Nodup → jsSet l = l
  | [], _ => rfl
  | b :: l, h => by
    simp only [jsSet]
    have hb : b ∉ l := (List.nodup_cons.1 h).1
    rw [jsSet_eq_self_of_nodup (List.nodup_cons.1 h).2]
    rw [List.filter_eq_self.2]
    intro c hc
    simp only [decide_eq_true_eq]
    exact fun hcb => hb (hcb ▸ hc)

theorem jsSet_toFinset (l : List K) : (jsSet l).toFinset = l.toFinset := by
  ext a
  simp [List.mem_toFinset, mem_jsSet]

theorem length_jsSet (l : List K) : (jsSet l).length = l.dedup.length := by
  have h1 : (jsSet l).toFinset.card = (jsSet l).length :=
    List.toFinset_card_of_nodup (nodup_jsSet l)
  have h2 : l.toFinset.card = l.dedup.length := by
    simp [List.toFinset, Multiset.toFinset, List.card_toFinset]
  rw [← h1, jsSet_toFinset, h2]

end JsSetLemmas

section ForwarderLemmas

variable {P Err : Type}

theorem forwardGo_all_ok :
    ∀ (ps : List P) (i : Nat) (outcome : Nat → Except Err Unit),
      (∀ j, j < ps.length → outcome (i + j) = Except.ok ()) →
      forwardGo ps i outcome = (ps.map MutEvent.call, Except.ok ())
  | [], _, _, _ => rfl
  | p :: rest, i, outcome, h => by
    have h0 : outcome i = Except.ok () := by
      have := h 0 (by simp)
      simpa using this
    have hrest : ∀ j, j < rest.length → outcome (i + 1 + j) = Except.ok () := by
      intro j hj
      have := h (j + 1) (by simpa using Nat.succ_lt_succ hj)
      simpa [Nat.add_assoc, Nat.add_comm 1 j] using this
    simp [forwardGo, h0, forwardGo_all_ok rest (i + 1) outcome hrest]

theorem forwardGo_fail :
    ∀ (pre : List P) (m : P) (post : List P) (i : Nat)
      (outcome : Nat → Except Err Unit) (e : Err),
      (∀ j, j < pre.length → outcome (i + j) = Except.ok ()) →
      outcome (i + pre.length) = Except.error e →
      forwardGo (pre ++ m :: post) i outcome =
        ((pre ++ [m]).map MutEvent.call ++ [MutEvent.obs e], Except.error e)
  | [], m, post, i, outcome, e, _, hfail => by
    have h0 : outcome i = Except.error e := by simpa using hfail
    simp [forwardGo, h0]
  | p :: pre, m, post, i, outcome, e, hok, hfail => by
    have h0 : outcome i = Except.ok () := by
      have := hok 0 (by simp)
      simpa using this
    have hok' : ∀ j, j < pre.length → outcome (i + 1 + j) = Except.ok () := by
      intro j hj
      have := hok (j + 1) (by simpa using Nat.succ_lt_succ hj)
      simpa [Nat.add_assoc, Nat.add_comm 1 j] using this
    have hfail' : outcome (i + 1 + pre.length) = Except.error e := by
      have heq : i + 1 + pre.length = i + (p :: pre).length := by
        simp [List.length_cons]; omega
      rw [heq]; exact hfail
    simp [forwardGo, h0, forwardGo_fail pre m post (i + 1) outcome e hok' hfail']

end ForwarderLemmas

/-- C5: for every mutation batch (insert, update, or delete) in which the
calls before position `K` resolve and the `K`-th remote call rejects with
`e`, the later calls are never issued, the handler rejects with the same
`e`, and the observer is invoked exactly once, with `e` — the trace is
exactly the issued calls in order followed by one observer invocation. -/
theorem c5_mutation_failure {TItem C Err : Type} :
    (∀ (pre : List (InsMutation TItem)) (m : InsMutation TItem)
       (post : List (InsMutation TItem)) (outcome : Nat → Except Err Unit) (e : Err),
       (∀ j, j < pre.length → outcome j = Except.ok ()) →
       outcome pre.length = Except.error e →
       onInsertRun (pre ++ m :: post) outcome =
         ((pre ++ [m]).map (fun mu => MutEvent.call mu.modified) ++
           [MutEvent.obs e], Except.error e)) ∧
    (∀ (pre : List (UpdMutation C)) (m : UpdMutation C)
       (post : List (UpdMutation C)) (outcome : Nat → Except Err Unit) (e : Err),
       (∀ j, j < pre.length → outcome j = Except.ok ()) →
       outcome pre.length = Except.error e →
       onUpdateRun (pre ++ m :: post) outcome =
         ((pre ++ [m]).map (fun mu => MutEvent.call (mkeyToString mu.key, mu.changes)) ++
           [MutEvent.obs e], Except.error e)) ∧
    (∀ (pre : List DelMutation) (m : DelMutation)
       (post : List DelMutation) (outcome : Nat → Except Err Unit) (e : Err),
       (∀ j, j < pre.length → outcome j = Except.ok ()) →
       outcome pre.length = Except.error e →
       onDeleteRun (pre ++ m :: post) outcome =
         ((pre ++ [m]).map (fun mu => MutEvent.call (mkeyToString mu.key)) ++
           [MutEvent.obs e], Except.error e)) := by
  refine ⟨?_, ?_, ?_⟩
  · intro pre m post outcome e hok hfail
    have := forwardGo_fail (pre.map (fun mu => mu.modified)) m.modified
      (post.map (fun mu => mu.modified)) 0 outcome e
      (by simpa using hok) (by simpa using hfail)
    simpa [onInsertRun, forwardLoop] using this
  · intro pre m post outcome e hok hfail
    have := forwardGo_fail (pre.map (fun mu => (mkeyToString mu.key, mu.changes)))
      (mkeyToString m.key, m.changes)
      (post.map (fun mu => (mkeyToString mu.key, mu.changes))) 0 outcome e
      (by simpa using hok) (by simpa using hfail)
    simpa [onUpdateRun, forwardLoop] using this
  · intro pre m post outcome e hok hfail
    have := forwardGo_fail (pre.map (fun mu => mkeyToString mu.key)) (mkeyToString m.key)
      (post.map (fun mu => mkeyToString mu.key)) 0 outcome e
      (by simpa using hok) (by simpa using hfail)
    simpa [onDeleteRun, forwardLoop] using this

/-- Witness for C5 at a concrete batch: three inserts, the second call
rejecting. Calls are issued for the first two entries only, the observer
fires once, and the handler rejects with the same error. -/
theorem c5_witness :
    onInsertRun [(⟨1⟩ : InsMutation Nat), ⟨2⟩, ⟨3⟩]
        (fun j => if j = 1 then Except.error "boom" else Except.ok ()) =
      ([MutEvent.call 1, MutEvent.call 2, MutEvent.obs "boom"],
        Except.error "boom") := by
  have h := (@c5_mutation_failure Nat Unit String).1
    [⟨1⟩] ⟨2⟩ [⟨3⟩] (fun j => if j = 1 then Except.error "boom" else Except.ok ())
    "boom"
    (by
      intro j hj
      obtain rfl : j = 0 := Nat.lt_one_iff.mp hj
      rfl)
    rfl
  simpa using h

/-- C9: for every batch in which all remote calls resolve, the remote calls
occur in exactly the input order (one call per entry, each awaited before
the next is issued, which the sequential trace model expresses), and the
handler resolves; updates and deletes follow the same discipline with keys
coerced to their string representation. -/
theorem c9_mutation_order {TItem C Err : Type} :
    (∀ (muts : List (InsMutation TItem)) (outcome : Nat → Except Err Unit),
       (∀ j, j < muts.length → outcome j = Except.ok ()) →
       onInsertRun muts outcome =
         (muts.map (fun mu => MutEvent.call mu.modified), Except.ok ())) ∧
    (∀ (muts : List (UpdMutation C)) (outcome : Nat → Except Err Unit),
       (∀ j, j < muts.length → outcome j = Except.ok ()) →
       onUpdateRun muts outcome =
         (muts.map (fun mu => MutEvent.call (mkeyToString mu.key, mu.changes)),
           Except.ok ())) ∧
    (∀ (muts : List DelMutation) (outcome : Nat → Except Err Unit),
       (∀ j, j < muts.length → outcome j = Except.ok ()) →
       onDeleteRun muts outcome =
         (muts.map (fun mu => MutEvent.call (mkeyToString mu.key)), Except.ok ())) := by
  refine ⟨?_, ?_, ?_⟩
  · intro muts outcome h
    have := forwardGo_all_ok (muts.map (fun mu => mu.modified)) 0 outcome
      (by simpa using h)
    simpa [onInsertRun, forwardLoop] using this
  · intro muts outcome h
    have := forwardGo_all_ok (muts.map (fun mu => (mkeyToString mu.key, mu.changes)))
      0 outcome (by simpa using h)
    simpa [onUpdateRun, forwardLoop] using this
  · intro muts outcome h
    have := forwardGo_all_ok (muts.map (fun mu => mkeyToString mu.key)) 0 outcome
      (by simpa using h)
    simpa [onDeleteRun, forwardLoop] using this

/-- Witness for C9 at concrete batches: two inserts and one update with a
numeric key, all calls resolving, issued in input order. -/
theorem c9_witness :
    onInsertRun [(⟨7⟩ : InsMutation Nat), ⟨8⟩] (fun _ => (Except.ok () : Except String Unit)) =
      ([MutEvent.call 7, MutEvent.call 8], Except.ok ()) ∧
    onUpdateRun [(⟨MKey.num 5, "chg"⟩ : UpdMutation String)]
        (fun _ => (Except.ok () : Except String Unit)) =
      ([MutEvent.call ("5", "chg")], Except.ok ()) := by
  constructor
  · have h := (@c9_mutation_order Nat Unit String).1
      [⟨7⟩, ⟨8⟩] (fun _ => Except.ok ()) (fun _ _ => rfl)
    simpa using h
  · have h := (@c9_mutation_order Nat String String).2.1
      [⟨MKey.num 5, "chg"⟩] (fun _ => Except.ok ()) (fun _ _ => rfl)
    simpa [mkeyToString] using h

section ReconcileRunLemmas

variable {TItem K Err : Type} [DecidableEq K]

theorem reconcileSnapshotRun_error {localItems : List TItem}
    {results : Option (List TItem)} {getKey : TItem → Except Err K} {e : Err}
    (h : (reconcileSnapshotRun localItems results getKey).2 = some e) :
    (reconcileSnapshotRun localItems results getKey).1 = [SyncEvent.evBegin] := by
  simp only [reconcileSnapshotRun] at h ⊢
  rcases hl : localItems.mapM getKey with e1 | lk
  · rfl
  · rcases hr : (results.getD []).mapM getKey with e2 | rk
    · rfl
    · rw [hl, hr] at h
      simp at h

theorem reconcileSnapshotRun_ok {localItems : List TItem}
    {results : Option (List TItem)} {getKey : TItem → Except Err K}
    (h : (reconcileSnapshotRun localItems results getKey).2 = none) :
    ∃ ws : List (SyncEvent TItem Err),
      (∀ x ∈ ws, ∃ op, x = SyncEvent.evWrite op) ∧
      (reconcileSnapshotRun localItems results getKey).1 =
        SyncEvent.evBegin :: ws ++ [SyncEvent.evCommit] := by
  simp only [reconcileSnapshotRun] at h ⊢
  rcases hl : localItems.mapM getKey with e1 | lk
  · rw [hl] at h
    simp at h
  · rcases hr : (results.getD []).mapM getKey with e2 | rk
    · rw [hl, hr] at h
      simp at h
    · refine ⟨_, ?_, rfl⟩
      intro x hx
      rcases List.mem_append.1 hx with hx | hx
      · rcases List.mem_filterMap.1 hx with ⟨k, _, hk⟩
        rcases Option.map_eq_some'.1 hk with ⟨p, _, hp⟩
        exact ⟨_, hp.symm⟩
      · rcases List.mem_map.1 hx with ⟨p, _, hp⟩
        by_cases hmem : p.2 ∈ jsSet lk
        · rw [if_pos hmem] at hp
          exact ⟨_, hp.symm⟩
        · rw [if_neg hmem] at hp
          exact ⟨_, hp.symm⟩

end ReconcileRunLemmas

/-- C6: every reconciliation pass is bracketed — when the computation of the
operations succeeds the trace is exactly `begin`, then only write events,
then a single final `commit`; when computing the operations throws (a
`getKey` throw), the trace is just `begin`: `commit` is never called, so no
partial batch is committed. -/
theorem c6_atomicity {TItem K Err : Type} [DecidableEq K]
    (localItems : List TItem) (results : Option (List TItem))
    (getKey : TItem → Except Err K) :
    ((reconcileSnapshotRun localItems results getKey).2 = none →
      ∃ ws : List (SyncEvent TItem Err),
        (∀ x ∈ ws, ∃ op, x = SyncEvent.evWrite op) ∧
        (reconcileSnapshotRun localItems results getKey).1 =
          SyncEvent.evBegin :: ws ++ [SyncEvent.evCommit]) ∧
    (∀ e : Err, (reconcileSnapshotRun localItems results getKey).2 = some e →
      (reconcileSnapshotRun localItems results getKey).1 = [SyncEvent.evBegin]) :=
  ⟨fun h => reconcileSnapshotRun_ok h, fun _ h => reconcileSnapshotRun_error h⟩

/-- Witness for C6: a successful pass over one local and one remote item is
bracketed by `begin`/`commit`, and a pass whose `getKey` throws on the
remote item emits `begin` only. -/
theorem c6_witness :
    (∃ ws : List (SyncEvent Nat String),
      (∀ x ∈ ws, ∃ op, x = SyncEvent.evWrite op) ∧
      (reconcileSnapshotRun [1] (some [2]) (fun n => Except.ok n)).1 =
        SyncEvent.evBegin :: ws ++ [SyncEvent.evCommit]) ∧
    (reconcileSnapshotRun [1] (some [0])
        (fun n => if n = 0 then Except.error "boom" else Except.ok n)).1 =
      [SyncEvent.evBegin] :=
  ⟨(c6_atomicity [1] (some [2]) (fun n => Except.ok n)).1 rfl,
    (c6_atomicity [1] (some [0])
      (fun n => if n = 0 then Except.error "boom" else Except.ok n)).2 "boom" rfl⟩

/-- C1 counterexample: a session made ready by a subscription delivery of
item `1` then receives the one-shot fetch's successful result containing
item `2`; contrary to the claim, the fetch's snapshot is not reconciled —
the step emits no events at all (no `begin`, no writes, no `commit`) and the
replica still lacks item `2`. -/
theorem c1_counterexample :
    stepSession (fun n : Nat => n) ⟨true, [1]⟩
        (SessionInput.fetchOk (some [2]) : SessionInput Nat String) =
      (⟨true, [1]⟩, []) := rfl

/-- C1 (amended): if the one-shot fetch resolves after the subscription has
already signaled readiness, its snapshot is discarded — the early
`if (isReady) return;` means no reconciliation pass runs (no events are
emitted), the replica is unchanged, and readiness is not re-signaled. -/
theorem c1_late_fetch_discarded {TItem K Err : Type} [DecidableEq K]
    (getKey : TItem → K) (st : SessionState TItem)
    (snap : Option (List TItem)) (h : st.isReady = true) :
    stepSession getKey st (SessionInput.fetchOk snap : SessionInput TItem Err) =
      (st, []) := by
  simp [stepSession, h]

/-- Witness for C1 at a concrete ready session: the late fetch resolution
leaves the state untouched and emits nothing. -/
theorem c1_witness :
    stepSession (fun n : Nat => n) ⟨true, [5]⟩
        (SessionInput.fetchOk (some [7]) : SessionInput Nat String) =
      (⟨true, [5]⟩, []) :=
  c1_late_fetch_discarded (fun n : Nat => n) ⟨true, [5]⟩ (some [7]) rfl

/-- C2 counterexample: the one-shot fetch resolves successfully with an item
on which `getKey` throws `"boom"`; the reconciliation pass aborts after
`begin`, and — contrary to the claim — the observer IS invoked with that
reconciliation error, because the `.catch` attached after the `.then` also
catches exceptions thrown inside the `.then` callback. -/
theorem c2_counterexample :
    fetchResolveRun false ([] : List Nat) (some [0])
        (fun n => if n = 0 then Except.error "boom" else Except.ok n) =
      [SyncEvent.evBegin, SyncEvent.evOnError "boom"] := rfl

/-- C2 (amended): the observer is invoked with every fetch failure and
subscription error, and also with a reconciliation-computation error (a
`getKey` throw) occurring while processing a successful one-shot fetch,
since the fetch path's `.catch` covers the `.then` callback; only a
reconciliation error in the subscription data path is not reported to the
observer — it propagates out of the callback as an exception. -/
theorem c2_observer_paths {TItem K Err : Type} [DecidableEq K] :
    (∀ (l : List TItem) (snap : Option (List TItem))
       (g : TItem → Except Err K) (e : Err),
       (reconcileSnapshotRun l snap g).2 = some e →
       fetchResolveRun false l snap g =
         [SyncEvent.evBegin, SyncEvent.evOnError e]) ∧
    (∀ (b : Bool) (l : List TItem) (snap : Option (List TItem))
       (g : TItem → Except Err K) (e : Err),
       (reconcileSnapshotRun l snap g).2 = some e →
       subscriptionDataRun b l snap g =
         [SyncEvent.evBegin, SyncEvent.evThrown e]) ∧
    (∀ e : Err, @fetchRejectRun TItem Err e = [SyncEvent.evOnError e]) ∧
    (∀ e : Err, @subscriptionErrorRun TItem Err e = [SyncEvent.evOnError e]) := by
  refine ⟨?_, ?_, fun _ => rfl, fun _ => rfl⟩
  · intro l snap g e h
    have h1 := reconcileSnapshotRun_error h
    have hpair : reconcileSnapshotRun l snap g = ([SyncEvent.evBegin], some e) := by
      rw [← h1, ← h]
    simp [fetchResolveRun, hpair]
  · intro b l snap g e h
    have h1 := reconcileSnapshotRun_error h
    have hpair : reconcileSnapshotRun l snap g = ([SyncEvent.evBegin], some e) := by
      rw [← h1, ← h]
    simp [subscriptionDataRun, hpair]

/-- Witness for C2 at a concrete throwing `getKey`: the fetch path reports
the reconciliation error to the observer, the subscription path rethrows it
instead. -/
theorem c2_witness :
    fetchResolveRun false [3] (some [0])
        (fun n : Nat => if n = 0 then Except.error "boom" else Except.ok n) =
      [SyncEvent.evBegin, SyncEvent.evOnError "boom"] ∧
    subscriptionDataRun true [3] (some [0])
        (fun n : Nat => if n = 0 then Except.error "boom" else Except.ok n) =
      [SyncEvent.evBegin, SyncEvent.evThrown "boom"] :=
  ⟨(@c2_observer_paths Nat Nat String _).1 [3] (some [0]) _ "boom" rfl,
    (@c2_observer_paths Nat Nat String _).2.1 true [3] (some [0]) _ "boom" rfl⟩

/-- `true` exactly on the `markReady` event, for occurrence counting. -/
def isMarkReadyEv {TItem Err : Type} : SyncEvent TItem Err → Bool
  | .evMarkReady => true
  | _ => false

section SessionLemmas

variable {TItem K Err : Type} [DecidableEq K]

theorem countP_markReady_writes (ops : List (ChangeOp TItem)) :
    ((ops.map SyncEvent.evWrite : List (SyncEvent TItem Err))).countP
      isMarkReadyEv = 0 :=
  List.countP_eq_zero.2 (fun x hmem => by
    rcases List.mem_map.1 hmem with ⟨op, _, h⟩
    rw [← h]
    simp [isMarkReadyEv])

theorem stepSession_ready (getKey : TItem → K) (st : SessionState TItem)
    (inp : SessionInput TItem Err) (h : st.isReady = true) :
    (stepSession getKey st inp).1.isReady = true ∧
      (stepSession getKey st inp).2.countP isMarkReadyEv = 0 := by
  cases inp with
  | fetchOk snap => simp [stepSession, h]
  | fetchErr e => simp [stepSession, h, isMarkReadyEv]
  | subData snap =>
    refine ⟨by simp [stepSession], ?_⟩
    simp [stepSession, h, List.countP_cons, List.countP_append,
      countP_markReady_writes, isMarkReadyEv]
  | subErr e => simp [stepSession, h, isMarkReadyEv]

theorem stepSession_not_ready_data (getKey : TItem → K) (st : SessionState TItem)
    (inp : SessionInput TItem Err) (h : st.isReady = false)
    (hd : inp.isData = true) :
    (stepSession getKey st inp).1.isReady = true ∧
      (stepSession getKey st inp).2.countP isMarkReadyEv = 1 := by
  cases inp with
  | fetchOk snap =>
    refine ⟨by simp [stepSession, h], ?_⟩
    simp [stepSession, h, List.countP_cons, List.countP_append,
      countP_markReady_writes, isMarkReadyEv]
  | fetchErr e => exact absurd hd (by simp [SessionInput.isData])
  | subData snap =>
    refine ⟨by simp [stepSession], ?_⟩
    simp [stepSession, h, List.countP_cons, List.countP_append,
      countP_markReady_writes, isMarkReadyEv]
  | subErr e => exact absurd hd (by simp [SessionInput.isData])

theorem stepSession_not_ready_err (getKey : TItem → K) (st : SessionState TItem)
    (inp : SessionInput TItem Err) (_h : st.isReady = false)
    (hd : inp.isData = false) :
    (stepSession getKey st inp).1 = st ∧
      (stepSession getKey st inp).2.countP isMarkReadyEv = 0 := by
  cases inp with
  | fetchOk snap => exact absurd hd (by simp [SessionInput.isData])
  | fetchErr e => simp [stepSession, isMarkReadyEv]
  | subData snap => exact absurd hd (by simp [SessionInput.isData])
  | subErr e => simp [stepSession, isMarkReadyEv]

theorem runSession_ready (getKey : TItem → K) :
    ∀ (inputs : List (SessionInput TItem Err)) (st : SessionState TItem),
      st.isReady = true →
      (runSession getKey st inputs).2.countP isMarkReadyEv = 0
  | [], _, _ => rfl
  | inp :: rest, st, h => by
    have hstep := stepSession_ready getKey st inp h
    simp only [runSession, List.countP_append]
    rw [hstep.2, runSession_ready getKey rest _ hstep.1]

theorem runSession_not_ready (getKey : TItem → K) :
    ∀ (inputs : List (SessionInput TItem Err)) (st : SessionState TItem),
      st.isReady = false →
      (runSession getKey st inputs).2.countP isMarkReadyEv =
        (if inputs.any SessionInput.isData then 1 else 0)
  | [], _, _ => rfl
  | inp :: rest, st, h => by
    by_cases hd : inp.isData = true
    · have hstep := stepSession_not_ready_data getKey st inp h hd
      simp only [runSession, List.countP_append]
      rw [hstep.2, runSession_ready getKey rest _ hstep.1]
      simp [List.any_cons, hd]
    · have hd' : inp.isData = false := by
        cases hb : inp.isData
        · rfl
        · exact absurd hb hd
      have hstep := stepSession_not_ready_err getKey st inp h hd'
      simp only [runSession, List.countP_append]
      rw [hstep.2, hstep.1, runSession_not_ready getKey rest st h]
      simp [List.any_cons, hd']

end SessionLemmas

/-- C4: idempotent readiness — starting from a not-yet-ready session, for
every interleaving of fetch resolutions and subscription deliveries that
contains at least one data delivery (fetch success or subscription data),
`markReady` is invoked exactly once over the whole run; and the ready flag
is monotone: once set, no step ever clears it. -/
theorem c4_idempotent_readiness {TItem K Err : Type} [DecidableEq K] :
    (∀ (getKey : TItem → K) (replica0 : List TItem)
       (inputs : List (SessionInput TItem Err)),
       inputs.any SessionInput.isData = true →
       (runSession getKey ⟨false, replica0⟩ inputs).2.countP
         isMarkReadyEv = 1) ∧
    (∀ (getKey : TItem → K) (st : SessionState TItem)
       (inp : SessionInput TItem Err),
       st.isReady = true → (stepSession getKey st inp).1.isReady = true) := by
  constructor
  · intro getKey replica0 inputs hany
    rw [runSession_not_ready getKey inputs ⟨false, replica0⟩ rfl, if_pos hany]
  · intro getKey st inp h
    exact (stepSession_ready getKey st inp h).1

/-- Witness for C4: a concrete session in which the fetch fails, the
subscription delivers, and the subscription delivers again — exactly one
`markReady`; and a ready state stays ready across a further delivery. -/
theorem c4_witness :
    (runSession (fun n : Nat => n) ⟨false, []⟩
        ([SessionInput.fetchErr "net down", SessionInput.subData (some [1]),
          SessionInput.subData (some [1, 2])] :
          List (SessionInput Nat String))).2.countP isMarkReadyEv = 1 ∧
    (stepSession (fun n : Nat => n) ⟨true, [1]⟩
        (SessionInput.subData (some [2]) : SessionInput Nat String)).1.isReady =
      true :=
  ⟨(@c4_idempotent_readiness Nat Nat String _).1 (fun n => n) [] _ rfl,
    (@c4_idempotent_readiness Nat Nat String _).2 (fun n => n) ⟨true, [1]⟩
      (SessionInput.subData (some [2])) rfl⟩

section ReconcilerLemmas

variable {TItem K : Type} [DecidableEq K]

theorem filterMap_find_map_key (getKey : TItem → K) (l : List TItem) :
    ∀ (ks : List K), (∀ k ∈ ks, k ∈ l.map getKey) →
      ((ks.filterMap
          (fun k => l.find? (fun it => decide (getKey it = k)))).map getKey) = ks
  | [], _ => rfl
  | k :: ks, h => by
    have hk : k ∈ l.map getKey := h k (List.mem_cons_self k ks)
    rcases List.mem_map.1 hk with ⟨a, ha, hak⟩
    have hsome : (l.find? (fun it => decide (getKey it = k))).isSome :=
      List.find?_isSome.2 ⟨a, ha, by simp [hak]⟩
    rcases Option.isSome_iff_exists.1 hsome with ⟨b, hb⟩
    have hbk : getKey b = k := by
      have := List.find?_some hb
      simpa using this
    rw [List.filterMap_cons, hb]
    simp only [List.map_cons, hbk]
    rw [filterMap_find_map_key getKey l ks
      (fun k' hk' => h k' (List.mem_cons_of_mem _ hk'))]

theorem delItems_keys (getKey : TItem → K) (l r : List TItem) :
    (delItems l r getKey).map getKey =
      (jsSet (l.map getKey)).filter (fun k => decide (k ∉ r.map getKey)) := by
  apply filterMap_find_map_key
  intro k hk
  exact mem_jsSet.1 (List.mem_of_mem_filter hk)

theorem delItems_mem {getKey : TItem → K} {l r : List TItem} {it : TItem}
    (h : it ∈ delItems l r getKey) :
    it ∈ l ∧ getKey it ∉ r.map getKey := by
  rcases List.mem_filterMap.1 h with ⟨k, hk, hfind⟩
  have hit : it ∈ l := List.mem_of_find?_eq_some hfind
  have hkey : getKey it = k := by
    have := List.find?_some hfind
    simpa using this
  have hknot : k ∉ r.map getKey := by
    have := List.of_mem_filter hk
    simpa using this
  exact ⟨hit, hkey ▸ hknot⟩

theorem delItems_covers {getKey : TItem → K} {l r : List TItem} {k : K}
    (hl : k ∈ l.map getKey) (hr : k ∉ r.map getKey) :
    ∃ it, it ∈ l ∧ getKey it = k ∧ it ∈ delItems l r getKey := by
  rcases List.mem_map.1 hl with ⟨a, ha, hak⟩
  have hsome : (l.find? (fun it => decide (getKey it = k))).isSome :=
    List.find?_isSome.2 ⟨a, ha, by simp [hak]⟩
  rcases Option.isSome_iff_exists.1 hsome with ⟨b, hb⟩
  refine ⟨b, List.mem_of_find?_eq_some hb, by simpa using List.find?_some hb, ?_⟩
  apply List.mem_filterMap.2
  refine ⟨k, ?_, hb⟩
  apply List.mem_filter.2
  exact ⟨mem_jsSet.2 hl, by simpa using hr⟩

theorem find?_key_self {getKey : TItem → K} :
    ∀ {l : List TItem}, (l.map getKey).Nodup → ∀ {a : TItem}, a ∈ l →
      l.find? (fun it => decide (getKey it = getKey a)) = some a
  | [], _, _, ha => absurd ha (List.not_mem_nil _)
  | b :: l, h, a, ha => by
    rcases List.mem_cons.1 ha with rfl | ha'
    · simp [List.find?_cons]
    · have hbne : getKey b ≠ getKey a := by
        intro hba
        have : getKey a ∈ l.map getKey := List.mem_map.2 ⟨a, ha', rfl⟩
        exact (List.nodup_cons.1 h).1 (hba ▸ this)
      rw [List.find?_cons_of_neg _ (by simpa using hbne)]
      exact find?_key_self (List.nodup_cons.1 h).2 ha'

theorem delItems_nil (getKey : TItem → K) (l : List TItem)
    (h : (l.map getKey).Nodup) : delItems l [] getKey = l := by
  unfold delItems
  have h1 : ((jsSet (l.map getKey)).filter
      (fun k => decide (k ∉ ([] : List TItem).map getKey))) = l.map getKey := by
    rw [List.filter_eq_self.2 (fun k _ => by simp)]
    exact jsSet_eq_self_of_nodup h
  rw [h1, List.filterMap_map]
  have h2 : ∀ a ∈ l,
      (l.find? (fun it => decide (getKey it = getKey a))) = some a :=
    fun a ha => find?_key_self h ha
  calc l.filterMap (fun a => l.find? (fun it => decide (getKey it = getKey a)))
      = l.filterMap some := List.filterMap_congr (fun a ha => h2 a ha)
    _ = l := List.filterMap_some l

omit [DecidableEq K] in
theorem mem_map_key_filter {getKey : TItem → K} {p : K → Bool}
    {items : List TItem} {k : K} :
    (k ∈ (items.filter (fun it => p (getKey it))).map getKey) ↔
      (k ∈ items.map getKey ∧ p k = true) := by
  constructor
  · intro h
    rcases List.mem_map.1 h with ⟨a, ha, hak⟩
    have := List.of_mem_filter ha
    exact ⟨List.mem_map.2 ⟨a, List.mem_of_mem_filter ha, hak⟩, hak ▸ this⟩
  · rintro ⟨h, hk⟩
    rcases List.mem_map.1 h with ⟨a, ha, hak⟩
    exact List.mem_map.2 ⟨a, List.mem_filter.2 ⟨ha, by rw [hak]; exact hk⟩, hak⟩

theorem mem_map_key_upsertVal {getKey : TItem → K} {items : List TItem}
    {v : TItem} {k : K} :
    (k ∈ (upsertVal getKey items v).map getKey) ↔
      (k = getKey v ∨ k ∈ items.map getKey) := by
  unfold upsertVal
  by_cases hany : items.any (fun it => decide (getKey it = getKey v)) = true
  · rw [if_pos hany]
    rcases List.any_eq_true.1 hany with ⟨w, hw, hwv⟩
    have hwv' : getKey w = getKey v := by simpa using hwv
    constructor
    · intro h
      rcases List.mem_map.1 h with ⟨a, ha, hak⟩
      rcases List.mem_map.1 ha with ⟨b, hb, hba⟩
      by_cases hbv : getKey b = getKey v
      · rw [if_pos hbv] at hba
        left
        rw [← hak, ← hba]
      · rw [if_neg hbv] at hba
        right
        exact List.mem_map.2 ⟨b, hb, hba ▸ hak⟩
    · intro h
      rcases h with rfl | h
      · exact List.mem_map.2 ⟨v, List.mem_map.2 ⟨w, hw, by rw [if_pos hwv']⟩, rfl⟩
      · rcases List.mem_map.1 h with ⟨a, ha, hak⟩
        by_cases hav : getKey a = getKey v
        · exact List.mem_map.2
            ⟨v, List.mem_map.2 ⟨a, ha, by rw [if_pos hav]⟩, by rw [← hak, hav]⟩
        · exact List.mem_map.2
            ⟨a, List.mem_map.2 ⟨a, ha, by rw [if_neg hav]⟩, hak⟩
  · rw [if_neg hany]
    rw [List.map_append]
    simp only [List.mem_append, List.map_cons, List.map_nil,
      List.mem_singleton]
    tauto

theorem applyOps_deletes (getKey : TItem → K) :
    ∀ (ds : List TItem) (items : List TItem),
      applyOps getKey items (ds.map ChangeOp.delete) =
        items.filter (fun it => decide (getKey it ∉ ds.map getKey))
  | [], items => by
    rw [List.filter_eq_self.2 (fun a _ => by simp)]
    rfl
  | d :: ds, items => by
    have hstep : applyOps getKey items ((d :: ds).map ChangeOp.delete) =
        applyOps getKey
          (items.filter (fun it => decide (getKey it ≠ getKey d)))
          (ds.map ChangeOp.delete) := rfl
    rw [hstep, applyOps_deletes getKey ds, List.filter_filter]
    apply List.filter_congr
    intro a _
    simp only [List.map_cons, List.mem_cons, decide_not]
    by_cases h1 : getKey a = getKey d <;> by_cases h2 : getKey a ∈ ds.map getKey <;>
      simp [h1, h2]

theorem applyOps_upserts (getKey : TItem → K) (c : TItem → Prop) [DecidablePred c] :
    ∀ (r : List TItem) (items : List TItem) (k : K),
      (k ∈ (applyOps getKey items
          (r.map (fun it =>
            if c it then ChangeOp.update it else ChangeOp.insert it))).map getKey) ↔
        (k ∈ r.map getKey ∨ k ∈ items.map getKey)
  | [], items, k => by simp [applyOps]
  | a :: r, items, k => by
    have hstep : applyOps getKey items
        ((a :: r).map (fun it =>
          if c it then ChangeOp.update it else ChangeOp.insert it)) =
        applyOps getKey (upsertVal getKey items a)
          (r.map (fun it =>
            if c it then ChangeOp.update it else ChangeOp.insert it)) := by
      by_cases hc : c a <;> simp [applyOps, applyOp, hc]
    rw [hstep, applyOps_upserts getKey c r (upsertVal getKey items a) k]
    rw [mem_map_key_upsertVal]
    simp only [List.map_cons, List.mem_cons]
    tauto

theorem applyOps_append (getKey : TItem → K) (items : List TItem)
    (xs ys : List (ChangeOp TItem)) :
    applyOps getKey items (xs ++ ys) =
      applyOps getKey (applyOps getKey items xs) ys := by
  simp [applyOps, List.foldl_append]

theorem mem_delItems_keys {getKey : TItem → K} {l r : List TItem} {k : K} :
    (k ∈ (delItems l r getKey).map getKey) ↔
      (k ∈ l.map getKey ∧ k ∉ r.map getKey) := by
  rw [delItems_keys]
  simp [List.mem_filter, mem_jsSet]

end ReconcilerLemmas

/-- C3: convergence — applying the batch emitted by one reconciliation pass
to the current replica yields a keyed store whose key set is exactly the set
of keys of the snapshot's items under `getKey`: no more, no less. -/
theorem c3_convergence {TItem K : Type} [DecidableEq K] (getKey : TItem → K)
    (replica snapshot : List TItem) (k : K) :
    (k ∈ (applyOps getKey replica
        (reconcileOps replica snapshot getKey)).map getKey) ↔
      k ∈ snapshot.map getKey := by
  unfold reconcileOps
  rw [applyOps_append, applyOps_deletes,
    applyOps_upserts getKey
      (fun it => getKey it ∈ jsSet (replica.map getKey)) snapshot _ k]
  rw [mem_map_key_filter
    (p := fun x => decide (x ∉ (delItems replica snapshot getKey).map getKey))]
  simp only [decide_eq_true_eq, mem_delItems_keys]
  constructor
  · rintro (h | ⟨hR, hnd⟩)
    · exact h
    · by_contra hS
      exact hnd ⟨hR, hS⟩
  · intro h
    exact Or.inl h

/-- The key carried by a change operation: the key of its item. -/
def opKey {TItem K : Type} (getKey : TItem → K) : ChangeOp TItem → K
  | .insert v => getKey v
  | .update v => getKey v
  | .delete v => getKey v

/-- C7: shape of the emitted batch — the batch is the deletes followed by
one update/insert per snapshot item in the snapshot's own order, classified
solely by local key presence (no value-equality check); every delete carries
a full prior local item whose key is absent from the snapshot; every
local-only key receives a delete; and every snapshot item whose key is
present locally is unconditionally emitted as an update. -/
theorem c7_batch_shape {TItem K : Type} [DecidableEq K] (getKey : TItem → K)
    (l r : List TItem) :
    (reconcileOps l r getKey =
      (delItems l r getKey).map ChangeOp.delete ++
        r.map (fun it =>
          if getKey it ∈ l.map getKey then ChangeOp.update it
          else ChangeOp.insert it)) ∧
    (∀ op ∈ (delItems l r getKey).map ChangeOp.delete,
      ∃ it, it ∈ l ∧ op = ChangeOp.delete it ∧ getKey it ∉ r.map getKey) ∧
    (∀ k : K, k ∈ l.map getKey → k ∉ r.map getKey →
      ∃ it, it ∈ l ∧ getKey it = k ∧
        ChangeOp.delete it ∈ reconcileOps l r getKey) ∧
    (∀ it ∈ r, getKey it ∈ l.map getKey →
      ChangeOp.update it ∈ reconcileOps l r getKey) := by
  refine ⟨?_, ?_, ?_, ?_⟩
  · unfold reconcileOps
    congr 1
    apply List.map_congr_left
    intro it _
    simp [mem_jsSet]
  · intro op hop
    rcases List.mem_map.1 hop with ⟨it, hit, hop'⟩
    rcases delItems_mem hit with ⟨hl, hnr⟩
    exact ⟨it, hl, hop'.symm, hnr⟩
  · intro k hk hnk
    rcases delItems_covers hk hnk with ⟨it, hl, hkey, hdel⟩
    refine ⟨it, hl, hkey, ?_⟩
    unfold reconcileOps
    exact List.mem_append_left _ (List.mem_map.2 ⟨it, hdel, rfl⟩)
  · intro it hit hkey
    unfold reconcileOps
    apply List.mem_append_right
    exact List.mem_map.2 ⟨it, hit, by rw [if_pos (mem_jsSet.2 hkey)]⟩

/-- Witness for C7 on a concrete replica `[1, 2]` and snapshot `[2, 3]`:
key `2`, present on both sides, is unconditionally emitted as an update. -/
theorem c7_witness :
    ChangeOp.update 2 ∈ reconcileOps [1, 2] [2, 3] (fun n : Nat => n) :=
  (c7_batch_shape (fun n : Nat => n) [1, 2] [2, 3]).2.2.2 2 (by decide)
    (by decide)

/-- C8: minimality — when the snapshot's keys are pairwise distinct (a
snapshot is a keyed set), the emitted batch has at most one operation per
key (its key list is duplicate-free), so its size is at most the number of
distinct local keys plus the number of distinct snapshot keys. -/
theorem c8_minimality {TItem K : Type} [DecidableEq K] (getKey : TItem → K)
    (l r : List TItem) (hr : (r.map getKey).Nodup) :
    ((reconcileOps l r getKey).map (opKey getKey)).Nodup ∧
      (reconcileOps l r getKey).length ≤
        (l.map getKey).dedup.length + (r.map getKey).dedup.length := by
  have hkeys : (reconcileOps l r getKey).map (opKey getKey) =
      (delItems l r getKey).map getKey ++ r.map getKey := by
    unfold reconcileOps
    rw [List.map_append, List.map_map, List.map_map]
    congr 1
    apply List.map_congr_left
    intro it _
    by_cases h : getKey it ∈ jsSet (l.map getKey) <;>
      simp [Function.comp, h, opKey]
  constructor
  · rw [hkeys]
    refine List.Nodup.append ?_ hr ?_
    · rw [delItems_keys]
      exact (nodup_jsSet _).filter _
    · intro k hk1 hk2
      exact absurd hk2 (mem_delItems_keys.1 hk1).2
  · have hlen : (reconcileOps l r getKey).length =
        (delItems l r getKey).length + r.length := by
      unfold reconcileOps
      simp
    rw [hlen]
    have h1 : (delItems l r getKey).length ≤ (l.map getKey).dedup.length := by
      have : (delItems l r getKey).length =
          ((delItems l r getKey).map getKey).length := by simp
      rw [this, delItems_keys, ← length_jsSet]
      exact List.length_filter_le _ _
    have h2 : r.length = (r.map getKey).dedup.length := by
      rw [List.dedup_eq_self.2 hr]
      simp
    omega

/-- Witness for C8 on a concrete replica `[1, 2]` and snapshot `[2, 3]`
(distinct keys): the batch's key list is duplicate-free and the batch is no
larger than the number of distinct local plus distinct remote keys. -/
theorem c8_witness :
    ((reconcileOps [1, 2] [2, 3] (fun n : Nat => n)).map
      (opKey (fun n : Nat => n))).Nodup ∧
      (reconcileOps [1, 2] [2, 3] (fun n : Nat => n)).length ≤
        ([1, 2].map (fun n : Nat => n)).dedup.length +
          ([2, 3].map (fun n : Nat => n)).dedup.length :=
  c8_minimality (fun n : Nat => n) [1, 2] [2, 3] (by decide)

section BridgeLemmas

variable {TItem K Err : Type} [DecidableEq K]

omit [DecidableEq K] in
theorem mapM_ok (getKey : TItem → K) :
    ∀ l : List TItem,
      (l.mapM (fun it => (Except.ok (getKey it) : Except Err K))) =
        Except.ok (l.map getKey)
  | [] => rfl
  | a :: l => by
    rw [List.mapM_cons, mapM_ok getKey l]
    rfl

theorem find?_zip_map (getKey : TItem → K) (k : K) :
    ∀ l : List TItem,
      ((l.zip (l.map getKey)).find? (fun p => decide (p.2 = k))) =
        (l.find? (fun it => decide (getKey it = k))).map
          (fun it => (it, getKey it))
  | [] => rfl
  | a :: l => by
    simp only [List.map_cons, List.zip_cons_cons]
    by_cases h : getKey a = k
    · rw [List.find?_cons_of_pos _ (by simpa using h),
        List.find?_cons_of_pos _ (by simpa using h)]
      rfl
    · rw [List.find?_cons_of_neg _ (by simpa using h),
        List.find?_cons_of_neg _ (by simpa using h)]
      exact find?_zip_map getKey k l

omit [DecidableEq K] in
theorem zip_map_map {β : Type} (getKey : TItem → K) (f : TItem × K → β) :
    ∀ r : List TItem,
      (r.zip (r.map getKey)).map f = r.map (fun it => f (it, getKey it))
  | [] => rfl
  | a :: r => by
    simp only [List.map_cons, List.zip_cons_cons]
    rw [zip_map_map getKey f r]

/-- With a `getKey` that never throws, one run of `reconcileSnapshot` is the
bracketed write-out of the pure batch `reconcileOps`, and no exception
escapes. -/
theorem reconcileSnapshotRun_total (getKey : TItem → K) (l : List TItem)
    (results : Option (List TItem)) :
    reconcileSnapshotRun l results
        (fun it => (Except.ok (getKey it) : Except Err K)) =
      (SyncEvent.evBegin ::
        (reconcileOps l (results.getD []) getKey).map SyncEvent.evWrite ++
        [SyncEvent.evCommit], none) := by
  simp only [reconcileSnapshotRun]
  rw [mapM_ok getKey l, mapM_ok getKey (results.getD [])]
  dsimp only
  have hups : ((results.getD []).zip ((results.getD []).map getKey)).map
      (fun p => if p.2 ∈ jsSet (l.map getKey) then
        SyncEvent.evWrite (ChangeOp.update p.1)
      else SyncEvent.evWrite (ChangeOp.insert p.1)) =
      (((results.getD []).map (fun it =>
        if getKey it ∈ jsSet (l.map getKey) then ChangeOp.update it
        else ChangeOp.insert it)).map SyncEvent.evWrite :
          List (SyncEvent TItem Err)) := by
    rw [zip_map_map, List.map_map]
    apply List.map_congr_left
    intro it _
    by_cases h : getKey it ∈ jsSet (l.map getKey) <;> simp [Function.comp, h]
  have hdels : ((jsSet (l.map getKey)).filter
        (fun k => decide (k ∉ (results.getD []).map getKey))).filterMap
      (fun k => ((l.zip (l.map getKey)).find? (fun p => decide (p.2 = k))).map
        (fun p => SyncEvent.evWrite (ChangeOp.delete p.1))) =
      (((delItems l (results.getD []) getKey).map ChangeOp.delete).map
        SyncEvent.evWrite : List (SyncEvent TItem Err)) := by
    rw [List.map_map]
    unfold delItems
    rw [List.map_filterMap]
    apply List.filterMap_congr
    intro k _
    rw [find?_zip_map, Option.map_map]
    rfl
  rw [hups, hdels, reconcileOps, List.map_append]
  rfl

end BridgeLemmas

/-- C10: a `null`/`undefined` result set delivered to a reconciliation pass
is treated as the empty snapshot — the pass does not throw: it emits one
delete for every item currently in the replica (whose keys are distinct, the
replica being a keyed store), emits no inserts or updates, and still
commits. -/
theorem c10_null_snapshot {TItem K Err : Type} [DecidableEq K]
    (getKey : TItem → K) (l : List TItem) (h : (l.map getKey).Nodup) :
    reconcileSnapshotRun l none
        (fun it => (Except.ok (getKey it) : Except Err K)) =
      (SyncEvent.evBegin ::
        l.map (fun it => SyncEvent.evWrite (ChangeOp.delete it)) ++
        [SyncEvent.evCommit], none) := by
  rw [reconcileSnapshotRun_total getKey l none]
  unfold reconcileOps
  rw [show (none : Option (List TItem)).getD [] = [] from rfl,
    delItems_nil getKey l h]
  simp [List.map_map, Function.comp]

/-- Witness for C10 at a concrete replica `[10, 20]`: the null result set
yields exactly `begin`, `delete 10`, `delete 20`, `commit`, and no
exception. -/
theorem c10_witness :
    reconcileSnapshotRun [10, 20] none
        (fun n : Nat => (Except.ok n : Except String Nat)) =
      (SyncEvent.evBegin ::
        [SyncEvent.evWrite (ChangeOp.delete 10),
          SyncEvent.evWrite (ChangeOp.delete 20)] ++
        [SyncEvent.evCommit], none) :=
  c10_null_snapshot (fun n : Nat => n) [10, 20] (by decide)

end TriplitAdapter
